import Mathlib

/-
Verification of the Planner_injector plugin (src/Planner_injector/plugin.py).

Shallow embedding conventions:
* Timestamps (`time.time()` floats) are modelled as integers; every operation
  of the code compares or subtracts them, never divides, so the embedding
  passes the current time `now` explicitly wherever the code calls
  `time.time()`.
* The Python `dict` backing the cache is modelled as an association list with
  unique keys maintained by insert-replace; `dict.get`, item assignment and
  `del` become `cacheFind`, `cacheInsert` and `cacheErase`.
* Network and host effects are modelled by explicit parameters: the outcome
  of the single `httpx` POST is an `ApiOutcome` value, and side-effect counts
  (network calls, store reads/writes) are returned alongside results so that
  "no network call" claims are provable.
* Python exceptions escaping a function are modelled with `Except`.
-/

namespace PlannerInjector

/-- `UserInfo` dataclass: an immutable affinity snapshot
(`userid`, `impression`, `attitude`). -/
structure UserInfo where
  userid : String
  impression : Int
  attitude : String
deriving DecidableEq, Repr

/-- `UserInfoCacheEntry` TypedDict: a `UserInfo` plus the `stamp` written by
`time.time()` at `set` time. -/
structure UserInfoCacheEntry where
  user_info : UserInfo
  stamp : Int
deriving DecidableEq, Repr

/-- The `Dict[str, UserInfoCacheEntry]` backing the cache, as an association
list with unique keys. -/
abbrev Cache := List (String × UserInfoCacheEntry)

/-- `dict.get(user_id)`: first (unique) entry for the key, if any. -/
def cacheFind : Cache → String → Option UserInfoCacheEntry
  | [], _ => none
  | (k, v) :: rest, u => if k = u then some v else cacheFind rest u

/-- `del self._cache[user_id]`: drop the entry for the key. -/
def cacheErase : Cache → String → Cache
  | [], _ => []
  | (k, v) :: rest, u => if k = u then cacheErase rest u else (k, v) :: cacheErase rest u

/-- `self._cache[user_id] = entry`: insert-replace for the key. -/
def cacheInsert (c : Cache) (u : String) (e : UserInfoCacheEntry) : Cache :=
  (u, e) :: cacheErase c u

/-- `UserInfoCacheManager`: the cache dict plus the `ttl` fixed at
construction (default 3600).  The `threading.Lock` serialises operations;
the sequential embedding reflects the linearised behaviour. -/
structure UserInfoCacheManager where
  cache : Cache
  ttl : Int
deriving DecidableEq, Repr

/-- The default `ttl=3600` of `UserInfoCacheManager.__init__`. -/
def defaultTTL : Int := 3600

/-- The global `user_cache_manager = UserInfoCacheManager()` starts empty. -/
def emptyManager : UserInfoCacheManager := ⟨[], defaultTTL⟩

/-- `UserInfoCacheManager.get`: returns the cached `UserInfo` if present and
`now - stamp ≤ ttl`; an expired entry is deleted and `None` returned; a
missing entry returns `None`.  The (possibly changed) manager is returned
alongside, modelling the mutation of `self._cache`. -/
def UserInfoCacheManager.get (m : UserInfoCacheManager) (user_id : String) (now : Int) :
    Option UserInfo × UserInfoCacheManager :=
  match cacheFind m.cache user_id with
  | none => (none, m)
  | some cache_entry =>
    if now - cache_entry.stamp > m.ttl then
      (none, { m with cache := cacheErase m.cache user_id })
    else
      (some cache_entry.user_info, m)

/-- `UserInfoCacheManager.set`: unconditionally stores
`UserInfo(userid=user_id, impression, attitude)` under `user_id` with a fresh
stamp (`time.time()`, passed as `now`). -/
def UserInfoCacheManager.set (m : UserInfoCacheManager) (user_id : String)
    (impression : Int) (attitude : String) (now : Int) : UserInfoCacheManager :=
  { m with cache := cacheInsert m.cache user_id ⟨⟨user_id, impression, attitude⟩, now⟩ }

lemma cacheFind_cacheErase_self (c : Cache) (u : String) :
    cacheFind (cacheErase c u) u = none := by
  induction c with
  | nil => rfl
  | cons p rest ih =>
    obtain ⟨k, v⟩ := p
    by_cases h : k = u <;> simp [cacheErase, cacheFind, h, ih]

lemma mem_of_mem_cacheErase {c : Cache} {u : String} {p : String × UserInfoCacheEntry}
    (h : p ∈ cacheErase c u) : p ∈ c := by
  induction c with
  | nil => simp [cacheErase] at h
  | cons q rest ih =>
    obtain ⟨k, v⟩ := q
    by_cases hk : k = u
    · simp only [cacheErase, if_pos hk] at h
      exact List.mem_cons_of_mem _ (ih h)
    · simp only [cacheErase, if_neg hk] at h
      rcases List.mem_cons.mp h with h | h
      · exact h ▸ List.mem_cons_self _ _
      · exact List.mem_cons_of_mem _ (ih h)

lemma cacheFind_mem {c : Cache} {u : String} {e : UserInfoCacheEntry}
    (h : cacheFind c u = some e) : (u, e) ∈ c := by
  induction c with
  | nil => simp [cacheFind] at h
  | cons p rest ih =>
    obtain ⟨k, v⟩ := p
    by_cases hk : k = u
    · subst hk
      simp only [cacheFind, if_pos, Option.some.injEq] at h
      exact h ▸ List.mem_cons_self _ _
    · simp only [cacheFind, if_neg hk] at h
      exact List.mem_cons_of_mem _ (ih h)

lemma get_of_cacheFind_none {m : UserInfoCacheManager} {u : String} (now : Int)
    (h : cacheFind m.cache u = none) : m.get u now = (none, m) := by
  simp [UserInfoCacheManager.get, h]

/-- The possible outcomes of the single `client.post` in
`UserInfoGet.post_api`, as the `try/except` ladder distinguishes them:
`timeout` (`httpx.TimeoutException`), `requestError` (`httpx.RequestError`),
`httpStatusError` (non-2xx status turned into `httpx.HTTPStatusError` by
`raise_for_status`), `decodeError` (any other exception, e.g. JSON parsing),
or a decoded 2xx JSON body whose `impression` and `attitude` fields may each
be absent. -/
inductive ApiOutcome where
  | timeout
  | requestError
  | httpStatusError
  | decodeError
  | success (impression : Option Int) (attitude : Option String)
deriving DecidableEq, Repr

/-- `UserInfoGet.post_api`: total over every outcome — each `except` arm
returns `(0, "一般")`, and the success arm reads the optional JSON fields
with `data.get("impression", 0)` and `data.get("attitude", "一般")`. -/
def post_api (outcome : ApiOutcome) : Int × String :=
  match outcome with
  | .success impression attitude => (impression.getD 0, attitude.getD "一般")
  | _ => (0, "一般")

/-- The value `UserInfoGet.execute` returns plus its observable effects: the
updated global cache manager and counts of network calls (`post_api`),
cache reads (`user_cache_manager.get`) and cache writes
(`user_cache_manager.set`) it performed. -/
structure ExecResult where
  ret : Bool × Bool × Option Unit × Option Unit × Option Unit
  manager : UserInfoCacheManager
  networkCalls : Nat
  storeGets : Nat
  storeSets : Nat
deriving DecidableEq, Repr

/-- `UserInfoGet.execute`: returns `(False, True, None, None, None)` at once
when `is_enabled` is falsy; otherwise reads the cache and, on a hit, returns
`(True, True, None, None, None)` without fetching; on a miss it performs the
one `post_api` call and `set`s the result before returning the same tuple.
The outcome of the network call is the `outcome` parameter; `now` stands for
`time.time()` during this invocation. -/
def UserInfoGet.execute (enabled : Bool) (userId : String) (m : UserInfoCacheManager)
    (now : Int) (outcome : ApiOutcome) : ExecResult :=
  if enabled then
    match m.get userId now with
    | (some _, m') => ⟨(true, true, none, none, none), m', 0, 1, 0⟩
    | (none, m') =>
      ⟨(true, true, none, none, none),
        m'.set userId (post_api outcome).1 (post_api outcome).2 now, 1, 1, 1⟩
  else
    ⟨(false, true, none, none, none), m, 0, 0, 0⟩

/-- A sequence of enabled `UserInfoGet.execute` invocations for one user:
each list element gives the invocation's `time.time()` and the outcome its
network call would have; returns the final cache manager and the total
number of network calls actually performed. -/
def runExecutes (userId : String) :
    UserInfoCacheManager → List (Int × ApiOutcome) → UserInfoCacheManager × Nat
  | m, [] => (m, 0)
  | m, (t, o) :: rest =>
    let r := UserInfoGet.execute true userId m t o
    let tail := runExecutes userId r.manager rest
    (tail.1, r.networkCalls + tail.2)

/-- `TargetPersonInfo` as the wrapper uses it: only `user_id` is read
(`str(chat_target_info.user_id)`). -/
structure TargetPersonInfo where
  user_id : String
deriving DecidableEq, Repr

/-- The f-string appended by `_patch_planner` when a record is cached. -/
def favorability_prompt (user_info : UserInfo) : String :=
  "\n你对当前用户的好感度是" ++ toString user_info.impression ++ "，态度是" ++
    user_info.attitude ++ "，好感度越高，选择reply的概率越大。好感度>50则有75%的概率reply。"

/-- The Python `AttributeError` raised by `chat_target_info.user_id` when
`chat_target_info` is `None`. -/
def noneAttributeError : String :=
  "AttributeError: NoneType object has no attribute user_id"

/-- `_patch_planner` after the awaited original has returned `origResult =
(prompt, message_id_list)`: reads `chat_target_info.user_id` (raising if the
context is `None`), looks the user up in the global cache, appends
`favorability_prompt` on a hit, and returns the prompt with the untouched
message list.  The element type of the message list is irrelevant to the
wrapper, hence the parameter `α`. -/
def patch_planner {α : Type} (origResult : String × List α)
    (chat_target_info : Option TargetPersonInfo)
    (m : UserInfoCacheManager) (now : Int) :
    Except String (String × List α) × UserInfoCacheManager :=
  match chat_target_info with
  | none => (.error noneAttributeError, m)
  | some info =>
    match m.get info.user_id now with
    | (some user_info, m') =>
      (.ok (origResult.1 ++ favorability_prompt user_info, origResult.2), m')
    | (none, m') => (.ok origResult, m')

/-- The two callables that can be bound to
`BrainPlanner.build_planner_prompt` during the plugin's lifetime. -/
inductive PlannerFunc where
  | build_planner_prompt
  | patch_planner_wrapper
deriving DecidableEq, Repr

/-- The interception state: the current binding of
`BrainPlanner.build_planner_prompt` and the module-global `_original_func`. -/
structure PatchState where
  build_attr : PlannerFunc
  original_func : Option PlannerFunc
deriving DecidableEq, Repr

/-- Process start: the genuine planner bound, `_original_func = None`. -/
def initialPatchState : PatchState :=
  ⟨.build_planner_prompt, none⟩

/-- The `patch` procedure: capture the current binding into
`_original_func`, rebind the attribute to `_patch_planner`, then perform the
code's own success check `_original_func != BrainPlanner.build_planner_prompt`
(true logs 成功, false logs the 注入失败 error).  Returns the new state and
that check's value. -/
def patch (s : PatchState) : PatchState × Bool :=
  let captured := s.build_attr
  let s' : PatchState := ⟨.patch_planner_wrapper, some captured⟩
  (s', decide (s'.original_func ≠ some s'.build_attr))

/-- Invariant of the cache dict: every stored entry's record carries the key
it is filed under. -/
abbrev cacheKeyConsistent (c : Cache) : Prop :=
  ∀ p ∈ c, p.2.user_info.userid = p.1

lemma cacheErase_cacheErase (c : Cache) (u : String) :
    cacheErase (cacheErase c u) u = cacheErase c u := by
  induction c with
  | nil => rfl
  | cons p rest ih =>
    obtain ⟨k, v⟩ := p
    by_cases h : k = u <;> simp [cacheErase, h, ih]

lemma runExecutes_no_calls_of_hit (userId : String) (e : UserInfoCacheEntry) :
    ∀ (rest : List (Int × ApiOutcome)) (m : UserInfoCacheManager),
      cacheFind m.cache userId = some e →
      (∀ p ∈ rest, p.1 - e.stamp ≤ m.ttl) →
      runExecutes userId m rest = (m, 0) := by
  intro rest
  induction rest with
  | nil => intro m _ _; rfl
  | cons p rest ih =>
    intro m hfind hts
    obtain ⟨t, o⟩ := p
    have hfresh : t - e.stamp ≤ m.ttl := hts (t, o) (List.mem_cons_self _ _)
    have hget : m.get userId t = (some e.user_info, m) := by
      simp [UserInfoCacheManager.get, hfind, not_lt.mpr hfresh]
    have hexec : UserInfoGet.execute true userId m t o =
        ⟨(true, true, none, none, none), m, 0, 1, 0⟩ := by
      simp [UserInfoGet.execute, hget]
    have htail := ih m hfind (fun q hq => hts q (List.mem_cons_of_mem _ hq))
    simp [runExecutes, hexec, htail]

end PlannerInjector

namespace PlannerInjector

/-- C5: after `Store.set(u, i, a)` at time `tset`, a `get(u)` at any `tget`
still within the TTL window returns exactly the record `(u, i, a)`; `set`
unconditionally replaces the entry with a fresh stamp, so among several sets
for the same user the most recent one determines the value read back
(last-write-wins, no merging). -/
theorem store_set_get_roundtrip (m : UserInfoCacheManager) (u : String) (i : Int)
    (a : String) (tset tget : Int) (h : tget - tset ≤ m.ttl) :
    ((m.set u i a tset).get u tget).1 = some ⟨u, i, a⟩ ∧
    cacheFind (m.set u i a tset).cache u = some ⟨⟨u, i, a⟩, tset⟩ ∧
    ∀ (i' : Int) (a' : String) (t' : Int),
      (m.set u i' a' t').set u i a tset = m.set u i a tset := by
  have hfind : cacheFind (m.set u i a tset).cache u = some ⟨⟨u, i, a⟩, tset⟩ := by
    simp [UserInfoCacheManager.set, cacheInsert, cacheFind]
  refine ⟨?_, hfind, ?_⟩
  · have hno : ¬ (m.set u i a tset).ttl < tget - tset := not_lt.mpr h
    simp [UserInfoCacheManager.get, hfind, hno]
  · intro i' a' t'
    simp [UserInfoCacheManager.set, cacheInsert, cacheErase, cacheErase_cacheErase]

/-- C5 witness: `set("u1", 80, "friendly")` at time 0 read back at time 100
under the default TTL yields exactly that record. -/
theorem store_set_get_roundtrip_witness :
    ((emptyManager.set "u1" 80 "friendly" 0).get "u1" 100).1 =
      some ⟨"u1", 80, "friendly"⟩ :=
  (store_set_get_roundtrip emptyManager "u1" 80 "friendly" 0 100 (by decide)).1

/-- C6: `get(u)` returns the cached record exactly while
`now - recorded_at ≤ ttl`; once `now - recorded_at > ttl` the entry is
treated as absent: the `get` returns `None`, deletes the stale entry, and
any later `get` (even called twice) also returns `None`; for users with no
entry, `get` returns `None` and changes nothing. -/
theorem store_lazy_expiration (m : UserInfoCacheManager) (u : String) (now : Int) :
    (cacheFind m.cache u = none → m.get u now = (none, m)) ∧
    ∀ e, cacheFind m.cache u = some e →
      (now - e.stamp ≤ m.ttl → m.get u now = (some e.user_info, m)) ∧
      (m.ttl < now - e.stamp →
        (m.get u now).1 = none ∧
        cacheFind (m.get u now).2.cache u = none ∧
        ∀ t t' : Int,
          ((m.get u now).2.get u t).1 = none ∧
          (((m.get u now).2.get u t).2.get u t').1 = none) := by
  refine ⟨fun h => get_of_cacheFind_none now h, ?_⟩
  intro e hfind
  constructor
  · intro hfresh
    simp [UserInfoCacheManager.get, hfind, not_lt.mpr hfresh]
  · intro hexp
    have hget : m.get u now = (none, { m with cache := cacheErase m.cache u }) := by
      simp [UserInfoCacheManager.get, hfind, hexp]
    have hgone : cacheFind (m.get u now).2.cache u = none := by
      rw [hget]; exact cacheFind_cacheErase_self m.cache u
    refine ⟨by rw [hget], hgone, ?_⟩
    intro t t'
    have h1 : (m.get u now).2.get u t = (none, (m.get u now).2) :=
      get_of_cacheFind_none t hgone
    refine ⟨by rw [h1], ?_⟩
    rw [h1]
    rw [get_of_cacheFind_none t' hgone]

/-- C6 witness: an entry stamped 0 under TTL 3600 read at time 4000 is
absent, and a second read at time 5000 does not resurrect it. -/
theorem store_lazy_expiration_witness :
    ((emptyManager.set "u1" 80 "friendly" 0).get "u1" 4000).1 = none ∧
    (((emptyManager.set "u1" 80 "friendly" 0).get "u1" 4000).2.get "u1" 5000).1 = none := by
  have h := (store_lazy_expiration (emptyManager.set "u1" 80 "friendly" 0) "u1" 4000).2
    ⟨⟨"u1", 80, "friendly"⟩, 0⟩ (by decide)
  have h2 := h.2 (by decide)
  exact ⟨h2.1, (h2.2.2 5000 6000).1⟩

/-- C3: `post_api` never propagates an error: each of the four failure arms
(timeout, transport error, HTTP-status error, body-decoding error) returns
the identical neutral default `(0, "一般")`, and a successful response
returns the optional JSON fields with defaults `0` and `"一般"`. -/
theorem post_api_never_fails :
    post_api .timeout = (0, "一般") ∧
    post_api .requestError = (0, "一般") ∧
    post_api .httpStatusError = (0, "一般") ∧
    post_api .decodeError = (0, "一般") ∧
    (∀ (imp : Option Int) (att : Option String),
      post_api (.success imp att) = (imp.getD 0, att.getD "一般")) ∧
    (∀ att : Option String, (post_api (.success none att)).1 = 0) ∧
    (∀ imp : Option Int, (post_api (.success imp none)).2 = "一般") :=
  ⟨rfl, rfl, rfl, rfl, fun _ _ => rfl, fun _ => rfl, fun _ => rfl⟩

/-- C4: the enabled `execute` returns immediately on a cache hit with no
network call; on a miss it performs the one `post_api` call and then `set`s
its result before returning; consequently an initial miss followed by any
further invocations for the same user within the new entry's TTL window
performs exactly one network call in total. -/
theorem execute_cache_shields_network (userId : String) (m : UserInfoCacheManager)
    (now : Int) (outcome : ApiOutcome) :
    (∀ ui m', m.get userId now = (some ui, m') →
      UserInfoGet.execute true userId m now outcome =
        ⟨(true, true, none, none, none), m', 0, 1, 0⟩) ∧
    (∀ m', m.get userId now = (none, m') →
      UserInfoGet.execute true userId m now outcome =
        ⟨(true, true, none, none, none),
          m'.set userId (post_api outcome).1 (post_api outcome).2 now, 1, 1, 1⟩) ∧
    (∀ rest : List (Int × ApiOutcome),
      cacheFind m.cache userId = none → 0 ≤ m.ttl →
      (∀ p ∈ rest, p.1 - now ≤ m.ttl) →
      (runExecutes userId m ((now, outcome) :: rest)).2 = 1) := by
  refine ⟨?_, ?_, ?_⟩
  · intro ui m' hget
    simp [UserInfoGet.execute, hget]
  · intro m' hget
    simp [UserInfoGet.execute, hget]
  · intro rest hfind httl hts
    have hget : m.get userId now = (none, m) := get_of_cacheFind_none now hfind
    have hexec : UserInfoGet.execute true userId m now outcome =
        ⟨(true, true, none, none, none),
          m.set userId (post_api outcome).1 (post_api outcome).2 now, 1, 1, 1⟩ := by
      simp [UserInfoGet.execute, hget]
    have hfind1 : cacheFind
        (m.set userId (post_api outcome).1 (post_api outcome).2 now).cache userId =
        some ⟨⟨userId, (post_api outcome).1, (post_api outcome).2⟩, now⟩ := by
      simp [UserInfoCacheManager.set, cacheInsert, cacheFind]
    have htail := runExecutes_no_calls_of_hit userId
      ⟨⟨userId, (post_api outcome).1, (post_api outcome).2⟩, now⟩ rest
      (m.set userId (post_api outcome).1 (post_api outcome).2 now) hfind1
      (fun p hp => hts p hp)
    simp [runExecutes, hexec, htail]

/-- C4 witness: two invocations at times 0 and 10 for a new user under the
default TTL perform exactly one network call in total. -/
theorem execute_cache_shields_network_witness :
    (runExecutes "u1" emptyManager [(0, .timeout), (10, .timeout)]).2 = 1 :=
  (execute_cache_shields_network "u1" emptyManager 0 .timeout).2.2
    [(10, .timeout)] (by decide) (by decide) (by decide)

/-- C1: when the target user has a cached, unexpired record `ui`, the
wrapper returns the original prompt with `favorability_prompt ui` appended
exactly once and the message list untouched; the template instantiated at
impression 80 and attitude "friendly" is pinned to its literal text. -/
theorem patch_planner_injects_affinity {α : Type} (prompt : String) (mlist : List α)
    (info : TargetPersonInfo) (m m' : UserInfoCacheManager) (now : Int) (ui : UserInfo)
    (h : m.get info.user_id now = (some ui, m')) :
    patch_planner (prompt, mlist) (some info) m now =
      (.ok (prompt ++ favorability_prompt ui, mlist), m') ∧
    favorability_prompt ⟨"u1", 80, "friendly"⟩ =
      "\n你对当前用户的好感度是80，态度是friendly，好感度越高，选择reply的概率越大。好感度>50则有75%的概率reply。" := by
  constructor
  · simp [patch_planner, h]
  · rfl

/-- C1 witness: with the record `("u1", 80, "friendly")` freshly cached, the
wrapper on a stub returning `("Hello", [])` yields "Hello" with the affinity
sentence appended and the empty message list unchanged. -/
theorem patch_planner_injects_affinity_witness :
    patch_planner ("Hello", ([] : List Nat)) (some ⟨"u1"⟩)
        (emptyManager.set "u1" 80 "friendly" 0) 0 =
      (.ok ("Hello" ++ favorability_prompt ⟨"u1", 80, "friendly"⟩, []),
        emptyManager.set "u1" 80 "friendly" 0) :=
  (patch_planner_injects_affinity "Hello" [] ⟨"u1"⟩
    (emptyManager.set "u1" 80 "friendly" 0) (emptyManager.set "u1" 80 "friendly" 0) 0
    ⟨"u1", 80, "friendly"⟩ (by decide)).1

/-- C2: when the target user's cache lookup yields nothing (no entry, or an
expired one), the wrapper passes the original output through unchanged; and
whenever the wrapper returns normally, the returned message list is exactly
the original's. -/
theorem patch_planner_transparent_without_record {α : Type} (prompt : String)
    (mlist : List α) (info : TargetPersonInfo) (m : UserInfoCacheManager) (now : Int) :
    ((m.get info.user_id now).1 = none →
      (patch_planner (prompt, mlist) (some info) m now).1 = .ok (prompt, mlist)) ∧
    ∀ res, (patch_planner (prompt, mlist) (some info) m now).1 = .ok res →
      res.2 = mlist := by
  constructor
  · intro h
    rcases hg : m.get info.user_id now with ⟨oui, m2⟩
    rw [hg] at h
    simp at h
    subst h
    simp [patch_planner, hg]
  · intro res hres
    rcases hg : m.get info.user_id now with ⟨oui, m2⟩
    cases oui with
    | none =>
      simp [patch_planner, hg] at hres
      rw [← hres]
    | some ui =>
      simp [patch_planner, hg] at hres
      rw [← hres]

/-- C2 witness: on the empty cache, the wrapper returns the stub output
`("Hello", [])` byte-for-byte unchanged. -/
theorem patch_planner_transparent_without_record_witness :
    (patch_planner ("Hello", ([] : List Nat)) (some ⟨"u1"⟩) emptyManager 0).1 =
      .ok ("Hello", []) :=
  (patch_planner_transparent_without_record "Hello" [] ⟨"u1"⟩ emptyManager 0).1
    (by decide)

/-- C9: with `chat_target_info = None` the wrapper never returns normally:
after the original has returned, reading `chat_target_info.user_id` raises
an `AttributeError`, so the original output is not passed through and the
cache is untouched. -/
theorem patch_planner_none_target_raises {α : Type} (origResult : String × List α)
    (m : UserInfoCacheManager) (now : Int) :
    patch_planner origResult none m now = (.error noneAttributeError, m) :=
  rfl

/-- C8 counterexample: with the feature disabled, the first element of the
tuple `execute` returns — the handler's success flag, the element that is
`True` on every enabled path — is `False`, so the returned status does not
signal success. -/
theorem execute_disabled_not_success :
    ¬ (UserInfoGet.execute false "u1" emptyManager 0 .timeout).ret.1 = true := by
  decide

/-- C8 (amended): with the feature disabled, `execute` is a no-op — no cache
read, no network call, no cache write, cache state unchanged — and returns
exactly `(False, True, None, None, None)`: the continue flag `True` lets the
pipeline proceed, but the first (success) element is `False`. -/
theorem execute_disabled_noop (userId : String) (m : UserInfoCacheManager)
    (now : Int) (outcome : ApiOutcome) :
    UserInfoGet.execute false userId m now outcome =
      ⟨(false, true, none, none, none), m, 0, 0, 0⟩ :=
  rfl

/-- C7: a second run of `patch` does not leave the hook singly wrapped:
the first run captures the genuine original and its success check passes,
but the second run overwrites `_original_func` with the wrapper itself — the
wrapper would then delegate to itself, not to the genuine original — and the
code's own success check fails (the 注入失败 branch). -/
theorem patch_twice_self_references :
    (patch initialPatchState).1 =
      ⟨.patch_planner_wrapper, some .build_planner_prompt⟩ ∧
    (patch initialPatchState).2 = true ∧
    (patch (patch initialPatchState).1).1.original_func =
      some .patch_planner_wrapper ∧
    (patch (patch initialPatchState).1).1.original_func ≠
      some .build_planner_prompt ∧
    (patch (patch initialPatchState).1).2 = false := by
  decide

/-- C10: if every entry of the cache carries the key it is filed under, the
invariant is preserved by every `set` and every `get`, and any record `get`
returns for user `u` has `userid = u`. -/
theorem store_key_consistency (m : UserInfoCacheManager) (h : cacheKeyConsistent m.cache) :
    (∀ (u : String) (i : Int) (a : String) (t : Int),
      cacheKeyConsistent ((m.set u i a t).cache)) ∧
    (∀ (u : String) (now : Int), cacheKeyConsistent ((m.get u now).2.cache)) ∧
    (∀ (u : String) (now : Int) (r : UserInfo),
      (m.get u now).1 = some r → r.userid = u) := by
  refine ⟨?_, ?_, ?_⟩
  · intro u i a t p hp
    rcases List.mem_cons.mp hp with hp | hp
    · rw [hp]
    · exact h p (mem_of_mem_cacheErase hp)
  · intro u now
    rcases hf : cacheFind m.cache u with _ | e
    · simpa [UserInfoCacheManager.get, hf] using h
    · by_cases hexp : now - e.stamp > m.ttl
      · simp only [UserInfoCacheManager.get, hf, if_pos hexp]
        intro p hp
        exact h p (mem_of_mem_cacheErase hp)
      · simpa [UserInfoCacheManager.get, hf, hexp] using h
  · intro u now r hr
    rcases hf : cacheFind m.cache u with _ | e
    · simp [UserInfoCacheManager.get, hf] at hr
    · by_cases hexp : now - e.stamp > m.ttl
      · simp [UserInfoCacheManager.get, hf, hexp] at hr
      · simp [UserInfoCacheManager.get, hf, hexp] at hr
        rw [← hr]
        exact h (u, e) (cacheFind_mem hf)

/-- C10 witness: on a consistent concrete cache, a `set` preserves the
key-consistency invariant. -/
theorem store_key_consistency_witness :
    cacheKeyConsistent ((emptyManager.set "u1" 80 "friendly" 0).cache) :=
  (store_key_consistency emptyManager (by decide)).1 "u1" 80 "friendly" 0

end PlannerInjector
